import Mathlib

/-!
Verification of the invoice discovery and download pipeline of the
gptinvoice repository (src/download.ts) against its design document.

The embedding translates the TypeScript source into Lean: JavaScript
string operations become executable functions on `List Char` wrapped in
`String`, the pure date classifier and list filter are translated
directly, and the effectful functions (browser automation, filesystem
polling) are modelled over explicit environments that record the outcome
of each external step.
-/

namespace GptInvoice

/-! ## JavaScript string primitives

Executable models of the string operations used by src/download.ts:
`String.prototype.includes`, `startsWith`, `endsWith`, `toLowerCase`,
`padStart` and `split` with a single-character separator.  Strings are
handled through their underlying character lists. -/

/-- Model of list prefix testing (used by `includes` and `startsWith`). -/
def listIsPrefixOf : List Char → List Char → Bool
  | [], _ => true
  | _ :: _, [] => false
  | a :: as, b :: bs => a == b && listIsPrefixOf as bs

/-- Model of JavaScript `haystack.includes(needle)`: some suffix of the
haystack has the needle as a prefix.  `includes` of the empty string is
true, as in JavaScript. -/
def listIncludes : List Char → List Char → Bool
  | [], sub => sub.isEmpty
  | c :: t, sub => listIsPrefixOf sub (c :: t) || listIncludes t sub

/-- JavaScript `s.includes(sub)`. -/
def strIncludes (s sub : String) : Bool := listIncludes s.data sub.data

/-- JavaScript `s.startsWith(pre)`. -/
def strStartsWith (s pre : String) : Bool := listIsPrefixOf pre.data s.data

/-- JavaScript `s.endsWith(suf)`. -/
def strEndsWith (s suf : String) : Bool :=
  listIsPrefixOf suf.data.reverse s.data.reverse

/-- JavaScript `s.toLowerCase()`, restricted to the ASCII range handled
by `Char.toLower`; every string the classifier compares against is
ASCII. -/
def strToLower (s : String) : String := ⟨s.data.map Char.toLower⟩

/-- JavaScript `s.padStart(n, c)`. -/
def padStart (s : String) (n : Nat) (c : Char) : String :=
  ⟨List.replicate (n - s.data.length) c ++ s.data⟩

/-- JavaScript `s.split(sep)` for a one-character separator, on the
underlying character list.  The empty string splits to `[[]]`, as in
JavaScript. -/
def splitOnChar (sep : Char) : List Char → List (List Char)
  | [] => [[]]
  | c :: t =>
    let r := splitOnChar sep t
    if c = sep then [] :: r
    else
      match r with
      | [] => [[c]]
      | h :: hs => (c :: h) :: hs

/-! ## Data model (src/download.ts lines 20-37) -/

/-- An invoice found in the billing portal: the URL of its detail page
and the raw textual date captured from portal markup. -/
structure Invoice where
  url : String
  date : String
deriving DecidableEq

/-- Result of a download operation. -/
structure DownloadResult where
  success : Bool
  filePath : Option String
  error : Option String
deriving DecidableEq

/-! ## Date Classifier (src/download.ts lines 95-152)

`filterInvoicesByMonth` destructures `targetMonth.split('-')` into a
year component (always present, since `split` never returns an empty
array) and a month component that is `undefined` when the input has no
hyphen; the filter callback is the Date Classifier. -/

/-- The three-letter month abbreviations of the source (lines 105-118). -/
def monthNames : List String :=
  ["jan", "feb", "mar", "apr", "may", "jun",
   "jul", "aug", "sep", "oct", "nov", "dec"]

/-- The full month names of the source (lines 119-132). -/
def longMonthNames : List String :=
  ["january", "february", "march", "april", "may", "june",
   "july", "august", "september", "october", "november", "december"]

/-- JavaScript strict equality `a === b` where `b` may be `undefined`
(modelled as `none`): comparison with `undefined` is false. -/
def jsStrictEqOpt (a : String) (b : Option String) : Bool :=
  match b with
  | some s => a == s
  | none => false

/-- The filter callback of `filterInvoicesByMonth` (source lines
99-151): iterate the twelve months; on a case-insensitive name hit
require the padded month number to equal the target month and the year
to occur in the date string; independently accept an ISO prefix match.
When the month component is absent (`none`), the strict equality is
false and the template literal interpolates the text `undefined`,
exactly as JavaScript evaluates the source. -/
def matchesMonthAux (dateStr year : String) (month : Option String) : Bool :=
  ((List.range 12).any fun i =>
    (strIncludes (strToLower dateStr) (monthNames.getD i "") ||
     strIncludes (strToLower dateStr) (longMonthNames.getD i "")) &&
    (jsStrictEqOpt (padStart (toString (i + 1)) 2 '0') month &&
     strIncludes dateStr year))
  || strStartsWith dateStr (year ++ "-" ++ month.getD "undefined")

/-- The Date Classifier of the design document: the filter callback
applied to a present year and month pair. -/
def matchesMonth (dateStr year month : String) : Bool :=
  matchesMonthAux dateStr year (some month)

/-- `filterInvoicesByMonth` (source lines 95-152): destructure the split
of `targetMonth` on the hyphen and filter by the classifier. -/
def filterInvoicesByMonth (invoices : List Invoice) (targetMonth : String) :
    List Invoice :=
  let parts := splitOnChar '-' targetMonth.data
  let year : String := ⟨parts.headD []⟩
  let month : Option String := (parts[1]?).map fun l => ⟨l⟩
  invoices.filter fun invoice => matchesMonthAux invoice.date year month

/-! ## Claim-side definitions for the classifier

These state the two rules of the Date Classifier in the words of the
design document, to be compared with the translated source. -/

/-- Rule (a) of the classifier claim: some calendar month `i` in 1..12
whose English three-letter abbreviation or full name occurs as a
case-insensitive substring of the date text has zero-padded number equal
to the target month, and the target year occurs as a substring of the
date text. -/
def specMonthNameRule (dateText year month : String) : Prop :=
  ∃ i, 1 ≤ i ∧ i ≤ 12 ∧
    (strIncludes (strToLower dateText) (strToLower (monthNames.getD (i - 1) "")) = true ∨
     strIncludes (strToLower dateText) (strToLower (longMonthNames.getD (i - 1) "")) = true) ∧
    padStart (toString i) 2 '0' = month ∧
    strIncludes dateText year = true

/-- Rule (b) of the classifier claim: the date text starts with the
string `year ++ "-" ++ month`. -/
def specIsoRule (dateText year month : String) : Prop :=
  strStartsWith dateText (year ++ "-" ++ month) = true

example : matchesMonth "Jan 15, 2024" "2024" "01" = true := by decide
example : matchesMonth "February 1, 2024" "2024" "02" = true := by decide
example : matchesMonth "2024-01-10" "2024" "01" = true := by decide
example : matchesMonth "Dec 25, 2023" "2023" "12" = true := by decide
example : matchesMonth "JANUARY 1, 2024" "2024" "01" = true := by decide
example : matchesMonth "unknown" "2024" "01" = false := by decide
example : matchesMonth "December 5, 2024" "2024" "12" = true := by decide
example :
    filterInvoicesByMonth
      [⟨"u1", "Jan 15, 2024"⟩, ⟨"u2", "February 1, 2024"⟩, ⟨"u3", "Mar 20, 2024"⟩,
       ⟨"u4", "2024-01-10"⟩, ⟨"u5", "Dec 25, 2023"⟩, ⟨"u6", "January 5, 2024"⟩]
      "2024-01" =
    [⟨"u1", "Jan 15, 2024"⟩, ⟨"u4", "2024-01-10"⟩, ⟨"u6", "January 5, 2024"⟩] := by
  decide

/-! ## Helper lemmas on the string primitives -/

theorem strData_append (a b : String) : (a ++ b).data = a.data ++ b.data := by
  cases a; cases b; rfl

theorem strMk_data (s : String) : (⟨s.data⟩ : String) = s := by cases s; rfl

theorem listIsPrefixOf_mem (c : Char) :
    ∀ (a b l : List Char), listIsPrefixOf (a ++ c :: b) l = true → c ∈ l := by
  intro a
  induction a with
  | nil =>
    intro b l h
    cases l with
    | nil => simp [listIsPrefixOf] at h
    | cons x xs =>
      simp only [List.nil_append, listIsPrefixOf, Bool.and_eq_true, beq_iff_eq] at h
      rw [h.1]
      exact List.mem_cons_self x xs
  | cons y ys ih =>
    intro b l h
    cases l with
    | nil => simp [listIsPrefixOf] at h
    | cons x xs =>
      simp only [List.cons_append, listIsPrefixOf, Bool.and_eq_true] at h
      exact List.mem_cons_of_mem x (ih b xs h.2)

theorem monthName_candidates_unknown :
    ∀ i, i < 12 →
      (strIncludes (strToLower "unknown") (monthNames.getD i "") ||
       strIncludes (strToLower "unknown") (longMonthNames.getD i "")) = false := by
  decide

theorem monthNames_lower :
    ∀ i, i < 12 →
      strToLower (monthNames.getD i "") = monthNames.getD i "" ∧
      strToLower (longMonthNames.getD i "") = longMonthNames.getD i "" := by
  decide

/-! ## Claim theorems for the Date Classifier -/

/-- Claim C7: for every target pair, the Date Classifier applied to the
sentinel date string `unknown` returns false, and it returns a boolean
(never an error) on unparseable input — it is a total function in this
embedding, so the theorem states falsity for all targets. -/
theorem matchesMonth_unknown_false (y m : String) :
    matchesMonth "unknown" y m = false := by
  have h1 : ((List.range 12).any fun i =>
      (strIncludes (strToLower "unknown") (monthNames.getD i "") ||
       strIncludes (strToLower "unknown") (longMonthNames.getD i "")) &&
      (jsStrictEqOpt (padStart (toString (i + 1)) 2 '0') (some m) &&
       strIncludes "unknown" y)) = false := by
    apply Bool.eq_false_iff.mpr
    intro hany
    rw [List.any_eq_true] at hany
    obtain ⟨i, hi, hp⟩ := hany
    have hlt : i < 12 := List.mem_range.mp hi
    rw [Bool.and_eq_true] at hp
    rw [monthName_candidates_unknown i hlt] at hp
    exact Bool.false_ne_true hp.1
  have h2 : strStartsWith "unknown" (y ++ "-" ++ m) = false := by
    apply Bool.eq_false_iff.mpr
    intro hpre
    have hd : (y ++ "-" ++ m).data = y.data ++ '-' :: m.data := by
      rw [strData_append, strData_append]
      simp
    rw [strStartsWith, hd] at hpre
    have hmem : '-' ∈ "unknown".data := listIsPrefixOf_mem '-' y.data m.data _ hpre
    exact absurd hmem (by decide)
  simp only [matchesMonth, matchesMonthAux, Option.getD_some]
  rw [h1, h2]
  rfl

/-- Claim C1: for every date string and every target pair with a 4-digit
year and a month in 01..12, the Date Classifier returns true exactly
when the month-name rule or the ISO-prefix rule of the design document
holds. -/
theorem matchesMonth_iff_rules (dateText year month : String)
    (_hYear : year.data.length = 4 ∧ year.data.all Char.isDigit = true)
    (_hMonth : month ∈
      ["01", "02", "03", "04", "05", "06",
       "07", "08", "09", "10", "11", "12"]) :
    matchesMonth dateText year month = true ↔
      specMonthNameRule dateText year month ∨ specIsoRule dateText year month := by
  clear _hYear _hMonth
  constructor
  · intro h
    rw [matchesMonth] at h
    simp only [matchesMonthAux, Option.getD_some, Bool.or_eq_true] at h
    rcases h with h | h
    · left
      rw [List.any_eq_true] at h
      obtain ⟨i, hi, hp⟩ := h
      have hlt : i < 12 := List.mem_range.mp hi
      rw [Bool.and_eq_true, Bool.and_eq_true] at hp
      obtain ⟨hname, heq, hyear⟩ := hp
      simp only [jsStrictEqOpt, beq_iff_eq] at heq
      refine ⟨i + 1, by omega, by omega, ?_, heq, hyear⟩
      have hfix := monthNames_lower i hlt
      rw [Bool.or_eq_true] at hname
      simpa only [Nat.add_sub_cancel, hfix.1, hfix.2] using hname
    · right
      exact h
  · intro h
    rw [matchesMonth]
    simp only [matchesMonthAux, Option.getD_some, Bool.or_eq_true]
    rcases h with ⟨j, hj1, hj12, hname, hpad, hyear⟩ | h
    · left
      rw [List.any_eq_true]
      refine ⟨j - 1, List.mem_range.mpr (by omega), ?_⟩
      have hlt : j - 1 < 12 := by omega
      have hfix := monthNames_lower (j - 1) hlt
      have hj : j - 1 + 1 = j := by omega
      rw [Bool.and_eq_true, Bool.and_eq_true]
      refine ⟨?_, ?_, hyear⟩
      · rw [Bool.or_eq_true]
        rcases hname with hn | hn
        · left; rw [← hfix.1]; exact hn
        · right; rw [← hfix.2]; exact hn
      · simp only [jsStrictEqOpt, beq_iff_eq, hj]
        exact hpad
    · right
      exact h

/-- Witness for C1 at the concrete input of the design document. -/
theorem matchesMonth_iff_rules_witness :
    (("2024" : String).data.length = 4 ∧
     ("2024" : String).data.all Char.isDigit = true) ∧
    ("01" ∈
      (["01", "02", "03", "04", "05", "06",
        "07", "08", "09", "10", "11", "12"] : List String)) ∧
    (matchesMonth "Jan 15, 2024" "2024" "01" = true ↔
      specMonthNameRule "Jan 15, 2024" "2024" "01" ∨
      specIsoRule "Jan 15, 2024" "2024" "01") :=
  ⟨⟨by decide, by decide⟩, by decide,
    matchesMonth_iff_rules "Jan 15, 2024" "2024" "01"
      ⟨by decide, by decide⟩ (by decide)⟩

/-! ## Lemmas on the split of the target month -/

theorem splitOnChar_no_sep (sep : Char) :
    ∀ l, sep ∉ l → splitOnChar sep l = [l] := by
  intro l
  induction l with
  | nil => intro _; rfl
  | cons c t ih =>
    intro h
    have hc : ¬c = sep := fun e => h (e ▸ List.mem_cons_self c t)
    have ht : sep ∉ t := fun m => h (List.mem_cons_of_mem c m)
    simp [splitOnChar, hc, ih ht]

theorem splitOnChar_append (sep : Char) :
    ∀ (pre rest : List Char), sep ∉ pre →
      splitOnChar sep (pre ++ sep :: rest) = pre :: splitOnChar sep rest := by
  intro pre
  induction pre with
  | nil =>
    intro rest _
    simp [splitOnChar]
  | cons c t ih =>
    intro rest h
    have hc : ¬c = sep := fun e => h (e ▸ List.mem_cons_self c t)
    have ht : sep ∉ t := fun m => h (List.mem_cons_of_mem c m)
    have hr := ih rest ht
    simp [splitOnChar, hc, hr]

theorem targetMonth_split (year month : String)
    (hy : year.data.all Char.isDigit = true)
    (hm : month ∈
      (["01", "02", "03", "04", "05", "06",
        "07", "08", "09", "10", "11", "12"] : List String)) :
    splitOnChar '-' (year ++ "-" ++ month).data = [year.data, month.data] := by
  have hyd : '-' ∉ year.data := by
    intro hmem
    have hdig := List.all_eq_true.mp hy _ hmem
    exact absurd hdig (by decide)
  have hmd : '-' ∉ month.data := by
    fin_cases hm <;> decide
  have hd : (year ++ "-" ++ month).data = year.data ++ '-' :: month.data := by
    rw [strData_append, strData_append]
    simp
  rw [hd, splitOnChar_append '-' year.data month.data hyd,
    splitOnChar_no_sep '-' month.data hmd]

/-! ## Claim theorems for filterInvoicesByMonth -/

/-- Claim C3: on a validated `YYYY-MM` target month,
`filterInvoicesByMonth` is the list filter of the Date Classifier over
the input, a stable-order subsequence of the input; the empty input
yields the empty output, and the function is pure and deterministic
(equal calls give equal results by reflexivity in this embedding). -/
theorem filterInvoicesByMonth_spec (invoices : List Invoice)
    (year month targetMonth : String)
    (hy : year.data.all Char.isDigit = true)
    (_hy4 : year.data.length = 4)
    (hm : month ∈
      (["01", "02", "03", "04", "05", "06",
        "07", "08", "09", "10", "11", "12"] : List String))
    (ht : targetMonth = year ++ "-" ++ month) :
    filterInvoicesByMonth invoices targetMonth =
      invoices.filter (fun inv => matchesMonth inv.date year month) ∧
    (filterInvoicesByMonth invoices targetMonth).Sublist invoices ∧
    filterInvoicesByMonth ([] : List Invoice) targetMonth = [] ∧
    filterInvoicesByMonth invoices targetMonth =
      filterInvoicesByMonth invoices targetMonth := by
  subst ht
  have hsplit := targetMonth_split year month hy hm
  have hmain : ∀ invs : List Invoice,
      filterInvoicesByMonth invs (year ++ "-" ++ month) =
        invs.filter (fun inv => matchesMonth inv.date year month) := by
    intro invs
    simp only [filterInvoicesByMonth, hsplit, List.headD_cons, matchesMonth]
    simp [strMk_data]
  refine ⟨hmain invoices, ?_, hmain [], rfl⟩
  rw [hmain invoices]
  exact List.filter_sublist _

/-- Witness for C3 at a concrete fixture. -/
theorem filterInvoicesByMonth_spec_witness :
    filterInvoicesByMonth
      [⟨"u1", "Jan 15, 2024"⟩, ⟨"u4", "2024-01-10"⟩, ⟨"u5", "Dec 25, 2023"⟩]
      "2024-01" =
      List.filter (fun inv => matchesMonth inv.date "2024" "01")
        [⟨"u1", "Jan 15, 2024"⟩, ⟨"u4", "2024-01-10"⟩, ⟨"u5", "Dec 25, 2023"⟩] :=
  (filterInvoicesByMonth_spec
    [⟨"u1", "Jan 15, 2024"⟩, ⟨"u4", "2024-01-10"⟩, ⟨"u5", "Dec 25, 2023"⟩]
    "2024" "01" "2024-01" (by decide) (by decide) (by decide) (by decide)).1

/-- Claim C9: `filterInvoicesByMonth` is total over arbitrary string
inputs: for every invoice list and every target string, also malformed
ones, its value is a list (a subsequence of the input); in particular a
hyphen-free target leaves the month component absent and the function
still filters with the absent month rather than failing. -/
theorem filterInvoicesByMonth_total (invoices : List Invoice)
    (targetMonth : String) :
    (filterInvoicesByMonth invoices targetMonth).Sublist invoices ∧
    ('-' ∉ targetMonth.data →
      filterInvoicesByMonth invoices targetMonth =
        invoices.filter fun inv => matchesMonthAux inv.date targetMonth none) := by
  constructor
  · simp only [filterInvoicesByMonth]
    exact List.filter_sublist _
  · intro h
    simp only [filterInvoicesByMonth, splitOnChar_no_sep '-' targetMonth.data h,
      List.headD_cons]
    simp [strMk_data]

/-- Claim C10: membership in the output of `filterInvoicesByMonth`
depends only on the date field: two invoices of the input with equal
date strings are either both kept or both dropped, so changing only the
url field never changes selection. -/
theorem filterInvoicesByMonth_date_only (targetMonth : String)
    (invs : List Invoice) (a b : Invoice) (hdate : a.date = b.date)
    (ha : a ∈ invs) (hb : b ∈ invs) :
    a ∈ filterInvoicesByMonth invs targetMonth ↔
      b ∈ filterInvoicesByMonth invs targetMonth := by
  simp only [filterInvoicesByMonth, List.mem_filter, hdate]
  constructor
  · intro h; exact ⟨hb, h.2⟩
  · intro h; exact ⟨ha, h.2⟩

/-- Witness for C10: two invoices differing only in the url. -/
theorem filterInvoicesByMonth_date_only_witness :
    (⟨"u1", "Jan 15, 2024"⟩ : Invoice) ∈
        filterInvoicesByMonth
          [⟨"u1", "Jan 15, 2024"⟩, ⟨"u2", "Jan 15, 2024"⟩] "2024-01" ↔
      (⟨"u2", "Jan 15, 2024"⟩ : Invoice) ∈
        filterInvoicesByMonth
          [⟨"u1", "Jan 15, 2024"⟩, ⟨"u2", "Jan 15, 2024"⟩] "2024-01" :=
  filterInvoicesByMonth_date_only "2024-01"
    [⟨"u1", "Jan 15, 2024"⟩, ⟨"u2", "Jan 15, 2024"⟩]
    ⟨"u1", "Jan 15, 2024"⟩ ⟨"u2", "Jan 15, 2024"⟩ rfl (by decide) (by decide)

/-! ## Invoice extraction (src/download.ts lines 47-86)

The evaluate body of `getInvoiceUrls` runs over the DOM: for each anchor
matching the invoice link selector it pushes a record with the resolved
absolute href and a date taken from the containing row text by the
regular expression of line 72.  The DOM is modelled as the list of
matching anchors in DOM order, each carrying its resolved href and the
visible text of its containing row (`none` when `closest` finds no row);
the regular expression is modelled by an exact matcher for the two
alternatives, leftmost position first and alternative one preferred at
equal positions, as the JavaScript engine scans. -/

/-- JavaScript word character class `\w` (ASCII). -/
def isWordChar (c : Char) : Bool := c.isAlpha || c.isDigit || c = '_'

/-- JavaScript whitespace class `\s`: the ECMA-262 WhiteSpace and
LineTerminator code points — tab, line feed, vertical tab, form feed,
carriage return, space, no-break space, ogham space mark, the en-quad
through hair-space range, line separator, paragraph separator,
narrow no-break space, medium mathematical space, ideographic space and
the byte-order mark. -/
def isSpaceChar (c : Char) : Bool :=
  let n := c.toNat
  n = 0x09 || n = 0x0a || n = 0x0b || n = 0x0c || n = 0x0d || n = 0x20 ||
  n = 0xa0 || n = 0x1680 || (0x2000 ≤ n && n ≤ 0x200a) ||
  n = 0x2028 || n = 0x2029 || n = 0x202f || n = 0x205f || n = 0x3000 ||
  n = 0xfeff

/-- The tail of pattern one after the day digits: an optional comma,
one or more spaces, four digits. -/
def matchAfterDay (ds rest : List Char) : Option (List Char) :=
  let (comma, rest2) :=
    match rest with
    | ',' :: r => (([','] : List Char), r)
    | r => (([] : List Char), r)
  let sp := rest2.takeWhile isSpaceChar
  let rest3 := rest2.dropWhile isSpaceChar
  if sp.isEmpty then none
  else
    match rest3 with
    | d1 :: d2 :: d3 :: d4 :: _ =>
      if d1.isDigit && d2.isDigit && d3.isDigit && d4.isDigit then
        some (ds ++ comma ++ sp ++ [d1, d2, d3, d4])
      else none
    | _ => none

/-- The day of pattern one: one or two digits, greedily two first with
backtracking to one, as the engine evaluates the quantifier. -/
def matchDayDigits (rest : List Char) : Option (List Char) :=
  match rest with
  | [] => none
  | d1 :: r1 =>
    if d1.isDigit then
      match r1 with
      | d2 :: r2 =>
        if d2.isDigit then matchAfterDay [d1, d2] r2 <|> matchAfterDay [d1] r1
        else matchAfterDay [d1] r1
      | [] => matchAfterDay [d1] []
    else none

/-- Alternative one of the date regex: three word characters, spaces,
the day, an optional comma, spaces, four digits. -/
def matchMonthDayYear (l : List Char) : Option (List Char) :=
  match l with
  | c1 :: c2 :: c3 :: rest =>
    if isWordChar c1 && isWordChar c2 && isWordChar c3 then
      let sp := rest.takeWhile isSpaceChar
      let rest1 := rest.dropWhile isSpaceChar
      if sp.isEmpty then none
      else (matchDayDigits rest1).map fun tail => c1 :: c2 :: c3 :: (sp ++ tail)
    else none
  | _ => none

/-- Alternative two of the date regex: an ISO date, four digits, hyphen,
two digits, hyphen, two digits. -/
def matchIsoDate (l : List Char) : Option (List Char) :=
  match l with
  | a1 :: a2 :: a3 :: a4 :: h1 :: b1 :: b2 :: h2 :: e1 :: e2 :: _ =>
    if a1.isDigit && a2.isDigit && a3.isDigit && a4.isDigit &&
       h1 == '-' && b1.isDigit && b2.isDigit && h2 == '-' &&
       e1.isDigit && e2.isDigit then
      some [a1, a2, a3, a4, h1, b1, b2, h2, e1, e2]
    else none
  | _ => none

/-- The first match of the date regex in a text: leftmost starting
position wins, and at one position alternative one is tried before
alternative two. -/
def firstDateMatch : List Char → Option (List Char)
  | [] => none
  | c :: t => (matchMonthDayYear (c :: t) <|> matchIsoDate (c :: t)) <|>
      firstDateMatch t

/-- A DOM anchor matching the invoice link selector
`a[data-testid="hip-link"]`: its resolved absolute href and the visible
text of its containing row, `none` when neither `closest` lookup of
line 66 finds a row. -/
structure AnchorNode where
  href : String
  rowText : Option String
deriving DecidableEq

/-- The record pushed for one anchor (source lines 61-78): the resolved
href, and a date initialised to `unknown` and replaced by the first
regex match of the row text when a row exists and a pattern matches. -/
def extractInvoiceRecord (a : AnchorNode) : Invoice :=
  match a.rowText with
  | none => { url := a.href, date := "unknown" }
  | some text =>
    match firstDateMatch text.data with
    | some m => { url := a.href, date := ⟨m⟩ }
    | none => { url := a.href, date := "unknown" }

/-- The evaluate body of `getInvoiceUrls` (source lines 57-82): a
forEach loop pushing one record per matching anchor, in DOM order. -/
def getInvoiceUrlsEval (anchors : List AnchorNode) : List Invoice :=
  anchors.foldl (fun results a => results ++ [extractInvoiceRecord a]) []

/-- The date of claim C6: the first match in the row text of the date
regex, or the literal `unknown` when no pattern matches or no containing
row is found. -/
def specInvoiceDate (rowText : Option String) : String :=
  match rowText with
  | none => "unknown"
  | some t =>
    match firstDateMatch t.data with
    | some m => ⟨m⟩
    | none => "unknown"

example : firstDateMatch "xx Jan 5, 2024 $3".data = some "Jan 5, 2024".data := by
  decide
example : firstDateMatch "a 2024-01-15!".data = some "2024-01-15".data := by
  decide
example : firstDateMatch "no numeric day".data = none := by decide
example :
    firstDateMatch "Jan\u00a015, 2024".data = some "Jan\u00a015, 2024".data := by
  decide
example :
    firstDateMatch "Jan\x0c15, 2024".data = some "Jan\x0c15, 2024".data := by
  decide
example :
    firstDateMatch "Jan\x0b15,\u202f2024".data = some "Jan\x0b15,\u202f2024".data := by
  decide
example : firstDateMatch "June 15, 2024".data = some "une 15, 2024".data := by
  decide

theorem foldl_push_eq_map {α β : Type} (f : α → β) :
    ∀ (l : List α) (acc : List β),
      l.foldl (fun results a => results ++ [f a]) acc = acc ++ l.map f := by
  intro l
  induction l with
  | nil => intro acc; simp
  | cons x xs ih => intro acc; simp [ih]

/-- Claim C6: the extraction returns exactly one record per matching
anchor, in DOM order with no deduplication and no sorting — it is the
map over the anchor list of the record whose url is the resolved
absolute href and whose date is the first regex match of the containing
row text, with the sentinel `unknown` when no pattern matches or no row
is found; in particular the output length equals the anchor count. -/
theorem getInvoiceUrlsEval_spec (anchors : List AnchorNode) :
    getInvoiceUrlsEval anchors =
      anchors.map (fun a => { url := a.href, date := specInvoiceDate a.rowText }) ∧
    (getInvoiceUrlsEval anchors).length = anchors.length := by
  have hrec : ∀ a : AnchorNode,
      extractInvoiceRecord a =
        { url := a.href, date := specInvoiceDate a.rowText } := by
    intro a
    cases h : a.rowText with
    | none => simp [extractInvoiceRecord, specInvoiceDate, h]
    | some t =>
      cases hm : firstDateMatch t.data with
      | none => simp [extractInvoiceRecord, specInvoiceDate, h, hm]
      | some m => simp [extractInvoiceRecord, specInvoiceDate, h, hm]
  have hmap : getInvoiceUrlsEval anchors =
      anchors.map fun a => { url := a.href, date := specInvoiceDate a.rowText } := by
    simp only [getInvoiceUrlsEval,
      foldl_push_eq_map extractInvoiceRecord anchors [], List.nil_append]
    simp [hrec]
  exact ⟨hmap, by rw [hmap]; simp⟩

/-! ## Download Watcher (src/download.ts lines 225-254)

`waitForFileDownload` polls the directory and sleeps; the embedding
makes time explicit: an environment gives the directory listing at each
instant and the size a stat call reads at each instant, the loops
advance a clock by the slept amounts, and the result records the
instant at which the function returns or throws. -/

/-- The filesystem as observed over time. -/
structure FsEnv where
  listing : Nat → List String
  size : Nat → String → Nat

/-- The PDF files of the directory at an instant (readdir and the
filter of lines 227 and 230). -/
def pdfListing (env : FsEnv) (t : Nat) : List String :=
  (env.listing t).filter fun f => strEndsWith f ".pdf"

/-- The PDF files at an instant that are not in the call-time snapshot
(source line 231). -/
def newPdfFiles (env : FsEnv) (t : Nat) (existing : List String) : List String :=
  (pdfListing env t).filter fun f => !(existing.contains f)

/-- Outcome of the watcher: a returned path or the thrown timeout
error, each carrying the instant at which the function exits. -/
inductive WaitResult where
  | found (path : String) (time : Nat)
  | timedOut (time : Nat)
deriving DecidableEq

/-- The stabilization sub-loop (source lines 237-245): at most the
given fuel of iterations, each sleeping 500 and reading the candidate
size; return early when the reading is positive and equals the previous
reading, return the path anyway on exhaustion.  Called with fuel 10 and
initial previous size 0. -/
def stabilize (env : FsEnv) (file : String) : Nat → Nat → Nat → String × Nat
  | t, 0, _ => (file, t)
  | t, n + 1, lastSize =>
    if 0 < env.size (t + 500) file ∧ env.size (t + 500) file = lastSize then
      (file, t + 500)
    else stabilize env file (t + 500) n (env.size (t + 500) file)

/-- The size reading of iteration `k` of the stabilization loop started
at instant `t`: the loop sleeps 500 before each reading. -/
def sizeAt (env : FsEnv) (file : String) (t k : Nat) : Nat :=
  env.size (t + 500 * k) file

/-- Iteration `k` of the stabilization loop started at instant `t` with
initial previous size `last` returns early: its reading is non-zero and
equals the immediately preceding reading (the initial previous size for
the first iteration). -/
def stableAt (env : FsEnv) (file : String) (t last k : Nat) : Prop :=
  sizeAt env file t k ≠ 0 ∧
  sizeAt env file t k = (if k = 1 then last else sizeAt env file t (k - 1))

theorem stabilize_spec (env : FsEnv) (file : String) :
    ∀ (n t last : Nat),
      (stabilize env file t n last).1 = file ∧
      ((∃ k, 1 ≤ k ∧ k ≤ n ∧ stableAt env file t last k ∧
          (∀ j, 1 ≤ j → j < k → ¬stableAt env file t last j) ∧
          (stabilize env file t n last).2 = t + 500 * k) ∨
        ((∀ j, 1 ≤ j → j ≤ n → ¬stableAt env file t last j) ∧
          (stabilize env file t n last).2 = t + 500 * n)) := by
  intro n
  induction n with
  | zero =>
    intro t last
    refine ⟨rfl, Or.inr ⟨fun j hj1 hj0 => absurd (Nat.le_trans hj1 hj0) (by omega),
      by simp [stabilize]⟩⟩
  | succ n ih =>
    intro t last
    have hsz1 : env.size (t + 500) file = sizeAt env file t 1 := by
      unfold sizeAt
      norm_num
    have hs0 : stabilize env file t (n + 1) last =
        if 0 < env.size (t + 500) file ∧ env.size (t + 500) file = last then
          (file, t + 500)
        else stabilize env file (t + 500) n (env.size (t + 500) file) := by
      simp only [stabilize]
    by_cases hcond : 0 < env.size (t + 500) file ∧ env.size (t + 500) file = last
    · have hs : stabilize env file t (n + 1) last = (file, t + 500) := by
        rw [hs0, if_pos hcond]
      have hstable : stableAt env file t last 1 := by
        unfold stableAt
        rw [if_pos rfl, ← hsz1]
        exact ⟨by omega, hcond.2⟩
      exact ⟨by rw [hs], Or.inl ⟨1, le_refl 1, by omega, hstable,
        fun j hj1 hjlt => absurd hjlt (by omega), by rw [hs]⟩⟩
    · have hs : stabilize env file t (n + 1) last =
          stabilize env file (t + 500) n (env.size (t + 500) file) := by
        rw [hs0, if_neg hcond]
      have hnot1 : ¬stableAt env file t last 1 := by
        intro hst
        obtain ⟨hne0, heq1⟩ := hst
        rw [if_pos rfl] at heq1
        apply hcond
        rw [hsz1]
        exact ⟨by omega, heq1⟩
      have hshift : ∀ j, 1 ≤ j →
          (stableAt env file (t + 500) (env.size (t + 500) file) j ↔
            stableAt env file t last (j + 1)) := by
        intro j hj
        have hsz : ∀ i, sizeAt env file (t + 500) i = sizeAt env file t (i + 1) := by
          intro i
          unfold sizeAt
          have harith : t + 500 + 500 * i = t + 500 * (i + 1) := by ring
          rw [harith]
        unfold stableAt
        rw [hsz j, if_neg (by omega : ¬(j + 1 = 1)), Nat.add_sub_cancel]
        by_cases hj1 : j = 1
        · subst hj1
          rw [if_pos rfl, hsz1]
        · rw [if_neg hj1, hsz (j - 1)]
          have hj' : j - 1 + 1 = j := by omega
          rw [hj']
      obtain ⟨ih1, ih2⟩ := ih (t + 500) (env.size (t + 500) file)
      refine ⟨by rw [hs]; exact ih1, ?_⟩
      rcases ih2 with ⟨k, hk1, hkn, hstab, hfirst, heq⟩ | ⟨hnone, heq⟩
      · left
        refine ⟨k + 1, by omega, by omega, (hshift k hk1).mp hstab, ?_, ?_⟩
        · intro j hj1 hjlt
          by_cases hj : j = 1
          · subst hj
            exact hnot1
          · intro hst
            have hj2 : 1 ≤ j - 1 := by omega
            apply hfirst (j - 1) hj2 (by omega)
            apply (hshift (j - 1) hj2).mpr
            have hj' : j - 1 + 1 = j := by omega
            rw [hj']
            exact hst
        · rw [hs, heq]
          ring
      · right
        refine ⟨?_, by rw [hs, heq]; ring⟩
        intro j hj1 hjn
        by_cases hj : j = 1
        · subst hj
          exact hnot1
        · intro hst
          have hj2 : 1 ≤ j - 1 := by omega
          apply hnone (j - 1) hj2 (by omega)
          apply (hshift (j - 1) hj2).mpr
          have hj' : j - 1 + 1 = j := by omega
          rw [hj']
          exact hst

/-- Claim C5: the stabilization sub-loop started on a selected candidate
runs at most 10 iterations of 500 each (exit instant at most start plus
5000), always returns the candidate path (never fails), returns at the
first iteration whose reading is non-zero and equal to the immediately
preceding reading, and on exhaustion without such a pair of readings
still returns the path at instant start plus 5000. -/
theorem stabilize_10_spec (env : FsEnv) (file : String) (t : Nat) :
    (stabilize env file t 10 0).1 = file ∧
    (stabilize env file t 10 0).2 ≤ t + 5000 ∧
    ((∃ k, 1 ≤ k ∧ k ≤ 10 ∧ stableAt env file t 0 k ∧
        (∀ j, 1 ≤ j → j < k → ¬stableAt env file t 0 j) ∧
        (stabilize env file t 10 0).2 = t + 500 * k) ∨
      ((∀ j, 1 ≤ j → j ≤ 10 → ¬stableAt env file t 0 j) ∧
        (stabilize env file t 10 0).2 = t + 5000)) := by
  obtain ⟨h1, h2⟩ := stabilize_spec env file 10 t 0
  refine ⟨h1, ?_, ?_⟩
  · rcases h2 with ⟨k, _, hk10, _, _, heq⟩ | ⟨_, heq⟩
    · rw [heq]
      omega
    · rw [heq]
  · rcases h2 with hL | ⟨hnone, heq⟩
    · exact Or.inl hL
    · exact Or.inr ⟨hnone, by rw [heq]⟩

/-- A filesystem in which every stat reads the constant size 7. -/
def constSizeEnv : FsEnv :=
  { listing := fun _ => [], size := fun _ _ => 7 }

/-- Witness for C5 at a concrete environment: the loop returns the
candidate path. -/
theorem stabilize_10_spec_witness :
    (stabilize constSizeEnv "inv.pdf" 0 10 0).1 = "inv.pdf" :=
  (stabilize_10_spec constSizeEnv "inv.pdf" 0).1

/-- The outer polling loop (source lines 229-251): while the elapsed
time is below the timeout, list the new PDF files at the current
instant; on none, sleep 1000 and retry; on some, run the stabilization
loop on the first and return its path; on loop exit throw the timeout
error.  The elapsed clock starts at 0 and the current instant is the
call instant plus the elapsed time. -/
def waitOuter (env : FsEnv) (dir : String) (start timeout : Nat)
    (existing : List String) (elapsed : Nat) : WaitResult :=
  if _h : elapsed < timeout then
    match newPdfFiles env (start + elapsed) existing with
    | [] => waitOuter env dir start timeout existing (elapsed + 1000)
    | f :: _ =>
      .found (stabilize env (dir ++ "/" ++ f) (start + elapsed) 10 0).1
        (stabilize env (dir ++ "/" ++ f) (start + elapsed) 10 0).2
  else .timedOut (start + elapsed)
termination_by timeout - elapsed
decreasing_by omega

/-- `waitForFileDownload` (source lines 225-254): snapshot the PDF files
at the call instant, then run the polling loop from elapsed 0. -/
def waitForFileDownload (env : FsEnv) (dir : String) (start timeout : Nat) :
    WaitResult :=
  waitOuter env dir start timeout (pdfListing env start) 0

theorem waitOuter_exit {env : FsEnv} {dir : String}
    {start timeout : Nat} {existing : List String} {elapsed : Nat}
    (h : ¬elapsed < timeout) :
    waitOuter env dir start timeout existing elapsed =
      .timedOut (start + elapsed) := by
  rw [waitOuter.eq_def, dif_neg h]

theorem waitOuter_step_empty {env : FsEnv} {dir : String}
    {start timeout : Nat} {existing : List String} {elapsed : Nat}
    (h : elapsed < timeout)
    (hemp : newPdfFiles env (start + elapsed) existing = []) :
    waitOuter env dir start timeout existing elapsed =
      waitOuter env dir start timeout existing (elapsed + 1000) := by
  rw [waitOuter.eq_def, dif_pos h, hemp]

theorem waitOuter_found_here {env : FsEnv} {dir : String}
    {start timeout : Nat} {existing : List String} {elapsed : Nat}
    {f : String} {fs : List String} (h : elapsed < timeout)
    (hne : newPdfFiles env (start + elapsed) existing = f :: fs) :
    waitOuter env dir start timeout existing elapsed =
      .found (stabilize env (dir ++ "/" ++ f) (start + elapsed) 10 0).1
        (stabilize env (dir ++ "/" ++ f) (start + elapsed) 10 0).2 := by
  rw [waitOuter.eq_def, dif_pos h, hne]

theorem waitOuter_timeout (env : FsEnv) (dir : String) (start timeout : Nat)
    (existing : List String) :
    ∀ (fuel j : Nat), timeout - 1000 * j ≤ fuel →
      (∀ k, j ≤ k → 1000 * k < timeout →
        newPdfFiles env (start + 1000 * k) existing = []) →
      ∃ m, j ≤ m ∧ timeout ≤ 1000 * m ∧
        waitOuter env dir start timeout existing (1000 * j) =
          .timedOut (start + 1000 * m) := by
  intro fuel
  induction fuel with
  | zero =>
    intro j hf _
    exact ⟨j, le_refl j, by omega, waitOuter_exit (by omega)⟩
  | succ fuel ih =>
    intro j hf hall
    by_cases hlt : 1000 * j < timeout
    · have hemp := hall j (le_refl j) hlt
      have hstep := @waitOuter_step_empty env dir start timeout existing
        (1000 * j) hlt hemp
      rw [show (1000 * j + 1000 : Nat) = 1000 * (j + 1) from by ring] at hstep
      obtain ⟨m, hm1, hm2, heq⟩ :=
        ih (j + 1) (by omega) (fun k hk => hall k (by omega))
      exact ⟨m, by omega, hm2, by rw [hstep]; exact heq⟩
    · exact ⟨j, le_refl j, by omega, waitOuter_exit hlt⟩

theorem waitOuter_found (env : FsEnv) (dir : String) (start timeout : Nat)
    (existing : List String) :
    ∀ (fuel j : Nat), timeout - 1000 * j ≤ fuel →
      (∃ k, j ≤ k ∧ 1000 * k < timeout ∧
        newPdfFiles env (start + 1000 * k) existing ≠ []) →
      ∃ p t, waitOuter env dir start timeout existing (1000 * j) =
        .found p t := by
  intro fuel
  induction fuel with
  | zero =>
    intro j hf hex
    obtain ⟨k, hjk, hk, _⟩ := hex
    exact absurd hk (by omega)
  | succ fuel ih =>
    intro j hf hex
    obtain ⟨k, hjk, hk, hne⟩ := hex
    have hlt : 1000 * j < timeout := by omega
    cases hemp : newPdfFiles env (start + 1000 * j) existing with
    | cons f fs => exact ⟨_, _, waitOuter_found_here hlt hemp⟩
    | nil =>
      have hjk' : j ≠ k := fun e => hne (e ▸ hemp)
      have hstep := @waitOuter_step_empty env dir start timeout existing
        (1000 * j) hlt hemp
      rw [show (1000 * j + 1000 : Nat) = 1000 * (j + 1) from by ring] at hstep
      obtain ⟨p, t, heq⟩ :=
        ih (j + 1) (by omega) ⟨k, by omega, hk, hne⟩
      exact ⟨p, t, by rw [hstep]; exact heq⟩

/-- Claim C4: the watcher fails with the timeout error exactly when no
PDF file outside the call-time snapshot is observed at any polling
instant within the timeout; a failure exits at or after the call instant
plus the timeout, never before; and whenever a new PDF is observed at a
polling instant within the timeout the watcher returns a path instead of
throwing. -/
theorem waitForFileDownload_spec (env : FsEnv) (dir : String)
    (start timeout : Nat) :
    ((∃ t, waitForFileDownload env dir start timeout = .timedOut t) ↔
      ∀ k, 1000 * k < timeout →
        newPdfFiles env (start + 1000 * k) (pdfListing env start) = []) ∧
    (∀ t, waitForFileDownload env dir start timeout = .timedOut t →
      start + timeout ≤ t) ∧
    ((∃ k, 1000 * k < timeout ∧
        newPdfFiles env (start + 1000 * k) (pdfListing env start) ≠ []) →
      ∃ p t, waitForFileDownload env dir start timeout = .found p t) := by
  have hfound : (∃ k, 1000 * k < timeout ∧
      newPdfFiles env (start + 1000 * k) (pdfListing env start) ≠ []) →
      ∃ p t, waitForFileDownload env dir start timeout = .found p t := by
    intro hex
    obtain ⟨k, hk, hne⟩ := hex
    obtain ⟨p, t, heq⟩ := waitOuter_found env dir start timeout
      (pdfListing env start) timeout 0 (by omega) ⟨k, by omega, hk, hne⟩
    rw [Nat.mul_zero] at heq
    exact ⟨p, t, heq⟩
  have hto : (∀ k, 1000 * k < timeout →
      newPdfFiles env (start + 1000 * k) (pdfListing env start) = []) →
      ∃ m, timeout ≤ 1000 * m ∧
        waitForFileDownload env dir start timeout =
          .timedOut (start + 1000 * m) := by
    intro hall
    obtain ⟨m, _, hm, heq⟩ := waitOuter_timeout env dir start timeout
      (pdfListing env start) timeout 0 (by omega) (fun k _ hk => hall k hk)
    rw [Nat.mul_zero] at heq
    exact ⟨m, hm, heq⟩
  have hempty : ∀ t, waitForFileDownload env dir start timeout = .timedOut t →
      ∀ k, 1000 * k < timeout →
        newPdfFiles env (start + 1000 * k) (pdfListing env start) = [] := by
    intro t ht k hk
    by_contra hne
    obtain ⟨p, t', hf⟩ := hfound ⟨k, hk, hne⟩
    rw [ht] at hf
    exact WaitResult.noConfusion hf
  refine ⟨⟨fun hex => hempty hex.choose hex.choose_spec, fun hall => ?_⟩,
    ?_, hfound⟩
  · obtain ⟨m, _, heq⟩ := hto hall
    exact ⟨_, heq⟩
  · intro t ht
    obtain ⟨m, hm, heq⟩ := hto (hempty t ht)
    rw [ht] at heq
    injection heq with h
    omega

/-- A filesystem in which the same lone PDF is always listed, so the
call-time snapshot already contains it and nothing new ever appears. -/
def staticPdfEnv : FsEnv :=
  { listing := fun _ => ["old.pdf"], size := fun _ _ => 7 }

/-- Witness for C4 at a concrete environment: the watcher times out at
3000 with a 2500 timeout, at or after the timeout. -/
theorem waitForFileDownload_spec_witness :
    waitForFileDownload staticPdfEnv "out" 0 2500 = WaitResult.timedOut 3000 ∧
    0 + 2500 ≤ 3000 := by
  have hr : waitForFileDownload staticPdfEnv "out" 0 2500 =
      WaitResult.timedOut 3000 := by
    have h0 : newPdfFiles staticPdfEnv 0 (pdfListing staticPdfEnv 0) = [] := by
      decide
    have h1 : newPdfFiles staticPdfEnv 1000 (pdfListing staticPdfEnv 0) = [] := by
      decide
    have h2 : newPdfFiles staticPdfEnv 2000 (pdfListing staticPdfEnv 0) = [] := by
      decide
    show waitOuter staticPdfEnv "out" 0 2500 (pdfListing staticPdfEnv 0) 0 =
      WaitResult.timedOut 3000
    rw [waitOuter_step_empty (by omega) h0, waitOuter_step_empty (by omega) h1,
      waitOuter_step_empty (by omega) h2, waitOuter_exit (by omega)]
  exact ⟨hr, (waitForFileDownload_spec staticPdfEnv "out" 0 2500).2.1 3000 hr⟩

/-! ## Invoice Downloader (src/download.ts lines 163-215)

`downloadInvoice` opens a tab, then inside a try block creates the
output directory, configures the download sink over a protocol session,
navigates, waits for the button, clicks and delegates to the watcher;
the catch converts a thrown value into a failure result and the finally
closes the tab.  The embedding records the outcome of each external
step in an environment; a thrown value is an Error with a message or a
non-Error value.  The function returns the possibly-escaping result
together with the number of times the tab was closed.  Note that the
newPage call of line 171 stands before the try block of lines 173-214:
a failure there is not caught. -/

/-- A thrown JavaScript value: an Error carrying a message, or any
other value. -/
inductive JsError where
  | err (message : String)
  | other
deriving DecidableEq

/-- The message the catch block extracts (source line 210): the Error
message, or the text for a non-Error value. -/
def jsErrorMessage : JsError → String
  | .err m => m
  | .other => "Unknown error"

/-- The outcomes of the external steps of one `downloadInvoice` call:
opening the tab, the existence check plus mkdir, the protocol session
setup plus download behavior message, the navigation, the button wait,
the click, and the watcher. -/
structure DownloadEnv where
  newPageResult : Except JsError Unit
  mkdirResult : Except JsError Unit
  cdpResult : Except JsError Unit
  gotoResult : Except JsError Unit
  waitButtonResult : Except JsError Unit
  clickResult : Except JsError Unit
  watcherResult : Except JsError String

/-- The body of the try block (source lines 174-207): the six steps in
order, stopping at the first thrown value, producing the watcher path on
success. -/
def downloadInvoiceBody (env : DownloadEnv) : Except JsError String := do
  env.mkdirResult
  env.cdpResult
  env.gotoResult
  env.waitButtonResult
  env.clickResult
  env.watcherResult

/-- `downloadInvoice` (source lines 163-215): open the tab outside the
try block, then run the body under try-catch-finally.  The first
component is the returned result, or the escaping thrown value when the
tab could not be opened; the second counts the tab closes performed by
the finally block. -/
def downloadInvoice (env : DownloadEnv) :
    Except JsError DownloadResult × Nat :=
  match env.newPageResult with
  | .error e => (.error e, 0)
  | .ok _ =>
    match downloadInvoiceBody env with
    | .ok fp =>
      (.ok { success := true, filePath := some fp, error := none }, 1)
    | .error e =>
      (.ok { success := false, filePath := none,
             error := some (jsErrorMessage e) }, 1)

/-- An environment in which opening the tab fails and every later step
would succeed. -/
def newPageFailEnv : DownloadEnv :=
  { newPageResult := .error (.err "newPage failed"),
    mkdirResult := .ok (), cdpResult := .ok (), gotoResult := .ok (),
    waitButtonResult := .ok (), clickResult := .ok (),
    watcherResult := .ok "out/invoice.pdf" }

/-- An environment in which every step succeeds. -/
def allOkEnv : DownloadEnv :=
  { newPageResult := .ok (),
    mkdirResult := .ok (), cdpResult := .ok (), gotoResult := .ok (),
    waitButtonResult := .ok (), clickResult := .ok (),
    watcherResult := .ok "out/invoice.pdf" }

/-- An environment in which the tab opens and the navigation step
throws. -/
def gotoFailEnv : DownloadEnv :=
  { newPageResult := .ok (),
    mkdirResult := .ok (), cdpResult := .ok (),
    gotoResult := .error (.err "net::ERR_FAILED"),
    waitButtonResult := .ok (), clickResult := .ok (),
    watcherResult := .ok "out/invoice.pdf" }

/-- Counterexample to claim C2 as stated: when opening the tab fails,
the thrown value escapes `downloadInvoice` instead of being returned as
a failure result — the newPage call stands before the try block, so the
claim that a failure in the step of opening the tab is caught is false
at this input. -/
theorem downloadInvoice_newPage_escapes :
    (downloadInvoice newPageFailEnv).1 =
      Except.error (JsError.err "newPage failed") := rfl

/-- Claim C2 as amended: once the tab has opened, `downloadInvoice`
never raises past its own boundary: a failure in any step of the try
block (creating the output directory, configuring the download sink,
navigating, waiting for the button, clicking, waiting for the download)
is caught and returned as a failure result carrying the extracted
message, and on success the function returns a success result carrying
the watcher path; only a failure of the tab-opening step itself escapes
to the caller. -/
theorem downloadInvoice_boundary (env : DownloadEnv)
    (h : env.newPageResult = Except.ok ()) :
    (∃ r, (downloadInvoice env).1 = Except.ok r) ∧
    (∀ fp, downloadInvoiceBody env = Except.ok fp →
      (downloadInvoice env).1 =
        Except.ok { success := true, filePath := some fp, error := none }) ∧
    (∀ e, downloadInvoiceBody env = Except.error e →
      (downloadInvoice env).1 =
        Except.ok { success := false, filePath := none,
                    error := some (jsErrorMessage e) }) := by
  have hd : downloadInvoice env =
      match downloadInvoiceBody env with
      | .ok fp =>
        (.ok { success := true, filePath := some fp, error := none }, 1)
      | .error e =>
        (.ok { success := false, filePath := none,
               error := some (jsErrorMessage e) }, 1) := by
    unfold downloadInvoice
    rw [h]
  cases hb : downloadInvoiceBody env with
  | ok fp =>
    have hr : (downloadInvoice env).1 =
        Except.ok { success := true, filePath := some fp, error := none } := by
      rw [hd, hb]
    refine ⟨⟨_, hr⟩, ?_, ?_⟩
    · intro fp' hfp
      injection hfp with hfp'
      rw [← hfp']
      exact hr
    · intro e he
      exact Except.noConfusion he
  | error e =>
    have hr : (downloadInvoice env).1 =
        Except.ok { success := false, filePath := none,
                    error := some (jsErrorMessage e) } := by
      rw [hd, hb]
    refine ⟨⟨_, hr⟩, ?_, ?_⟩
    · intro fp hfp
      exact Except.noConfusion hfp
    · intro e' he
      injection he with he'
      rw [← he']
      exact hr

/-- Witness for the amended C2 at a concrete environment in which every
step succeeds. -/
theorem downloadInvoice_boundary_witness :
    allOkEnv.newPageResult = Except.ok () ∧
    ∃ r, (downloadInvoice allOkEnv).1 = Except.ok r :=
  ⟨rfl, (downloadInvoice_boundary allOkEnv rfl).1⟩

/-- Claim C8: every call of `downloadInvoice` that opens its dedicated
tab closes it exactly once before returning, on the success path and on
every failure path alike — the finally block runs whichever step of the
try block failed. -/
theorem downloadInvoice_closes_once (env : DownloadEnv)
    (h : env.newPageResult = Except.ok ()) :
    (downloadInvoice env).2 = 1 := by
  unfold downloadInvoice
  rw [h]
  cases downloadInvoiceBody env <;> rfl

/-- Witness for C8 at a concrete environment in which the navigation
step throws: the tab is still closed exactly once. -/
theorem downloadInvoice_closes_once_witness :
    gotoFailEnv.newPageResult = Except.ok () ∧
    (downloadInvoice gotoFailEnv).2 = 1 :=
  ⟨rfl, downloadInvoice_closes_once gotoFailEnv rfl⟩

end GptInvoice
